import Mathlib

/-!
Verification of the Connect3 backend graph-relationship engine
(`app/services/neo4j_db.py` and `app/routes/users.py`).

The Neo4j store is modelled as an explicit state `DB`: a list of `User`
nodes plus a list of directed `FRIENDS_WITH` relationships (the code
always creates the two directions as two separate directed
relationships).  Each Python function that runs a Cypher query is
translated into a pure Lean function over `DB`; mutating functions
return the updated `DB` alongside their result so that raised
exceptions (`Except.error`) leave a visibly unchanged state.

Python exceptions are modelled by `Err`:
 * `Err.valueError msg` — a raised `ValueError` (the code raises a bare
   `ValueError` for self-referential identities and for an exhausted
   quota, and `ValueError("No connection path found ...")` when no
   shortest path exists);
 * `Err.httpExc code detail` — a raised `fastapi.HTTPException`;
 * `Err.typeError` — a `TypeError` raised by Python itself (e.g. when
   `get_num_of_connections` returns the `ValueError` class and the
   caller compares it with an integer).

Nondeterministic externals are resolved deterministically:
`randomUUID()` and `datetime.now()` are derived from a fresh counter
`DB.nextId`.  The Cypher `shortestPath` primitive of the storage engine
is modelled as "some minimum-hop walk over the undirected FRIENDS_WITH
relation, if one exists", and variable-length traversal
`[:FRIENDS_WITH*1..k]` as the enumeration of all relationship-unique
trails of length 1..k.
-/

/-- A `(:User)` node as created by `create_user_in_db`. -/
structure UserNode where
  user_id : String
  name : String
  phonenumber : String
  hashed_password : String
  created_at : String
  remaining_connections : Int
  is_verified : Bool
deriving DecidableEq, Repr

/-- A stored directed `FRIENDS_WITH` relationship, endpoints named by
their node's `phonenumber` key. -/
structure RelEdge where
  src : String
  tgt : String
deriving DecidableEq, Repr

/-- The Neo4j database state.  `nextId` resolves `randomUUID()` /
`datetime.now()` deterministically. -/
structure DB where
  users : List UserNode
  rels : List RelEdge
  nextId : Nat
deriving DecidableEq, Repr

/-- `app.schemas.users.BaseUser`: `name` and `hashed_password` are
`Optional[str]`. -/
structure BaseUser where
  name : Option String
  phonenumber : String
  hashed_password : Option String
deriving DecidableEq, Repr

/-- `app.schemas.users.MinimalUser`. -/
structure MinimalUser where
  user_id : String
  name : String
  phonenumber : String
deriving DecidableEq, Repr

/-- `app.schemas.users.GraphEdge`. -/
structure GraphEdge where
  source : String
  target : String
deriving DecidableEq, Repr

/-- `app.schemas.users.GraphResponse`. -/
structure GraphResponse where
  nodes : List MinimalUser
  edges : List GraphEdge
deriving DecidableEq, Repr

/-- A raised Python exception. -/
inductive Err where
  | valueError (msg : String)
  | httpExc (code : Nat) (detail : String)
  | typeError
deriving DecidableEq, Repr

/-- The bare `raise ValueError` used by the code for self-referential
identities (the spec's `InvalidArgument`) and for an exhausted quota
(the spec's `QuotaExhausted`): both are the same bare `ValueError`. -/
def invalidArgument : Err := Err.valueError ""

/-- The `ValueError` raised by `find_shortest_path` when no path exists
(the spec's `NoPathFound`). -/
def noPathFound : Err := Err.valueError "No connection path found between the two users."

/-- Possible results of `get_num_of_connections`, which on a missing
user executes `return ValueError` — returning the exception *class* as
a normal value instead of raising it. -/
inductive GetNum where
  | int (n : Int)
  | excClass
deriving DecidableEq, Repr

/-- `MATCH (u:User {phonenumber: $phonenumber}) RETURN u` followed by
`result.single()`. -/
def findNode (db : DB) (phone : String) : Option UserNode :=
  db.users.find? (fun u => u.phonenumber == phone)

/-- `get_user_in_db` (src/app/services/neo4j_db.py:124-152).  Note the
source bug on line 150: `is_verified=(node["is_verified"] or True)`
makes every found user appear verified. -/
def get_user_in_db (phone : String) (db : DB) : Option UserNode :=
  (findNode db phone).map (fun node => { node with is_verified := node.is_verified || true })

/-- `create_user_in_db` (src/app/services/neo4j_db.py:35-122). -/
def create_user_in_db (user : BaseUser) (db : DB) : Except Err UserNode × DB :=
  let name := match user.name with
    | some s => if s == "" then "" else s
    | none => ""
  let hashed_password := match user.hashed_password with
    | some s => if s == "" then "" else s
    | none => ""
  let is_verified := !(name == "") && !(hashed_password == "")
  match get_user_in_db user.phonenumber db with
  | some existing =>
    if existing.is_verified then
      (.error (.httpExc 400 "User already exists and is verified"), db)
    else if is_verified then
      let db2 : DB := { db with users := db.users.map (fun u =>
        if u.phonenumber == user.phonenumber then
          { u with name := name, hashed_password := hashed_password, is_verified := is_verified }
        else u) }
      match findNode db2 user.phonenumber with
      | some node => (.ok node, db2)
      | none => (.error (.httpExc 500 "Failed to create/update user in DB."), db2)
    else
      (.error (.httpExc 400 "User already exists but is not verified. Cannot update with incomplete data."), db)
  | none =>
    let node : UserNode := {
      user_id := "uuid-" ++ toString db.nextId,
      name := name,
      phonenumber := user.phonenumber,
      hashed_password := hashed_password,
      created_at := "t" ++ toString db.nextId,
      remaining_connections := 3,
      is_verified := is_verified }
    (.ok node, { db with users := db.users ++ [node], nextId := db.nextId + 1 })

/-- Undirected adjacency over the stored directed relationships, i.e.
the Cypher pattern `(x)-[:FRIENDS_WITH]-(y)`. -/
def adjB (db : DB) (x y : String) : Bool :=
  db.rels.any (fun r => (r.src == x && r.tgt == y) || (r.src == y && r.tgt == x))

/-- Undirected neighbours of `x`: targets of outgoing relationships
followed by sources of incoming ones. -/
def nbrs (db : DB) (x : String) : List String :=
  db.rels.filterMap (fun r => if r.src == x then some r.tgt else none)
    ++ db.rels.filterMap (fun r => if r.tgt == x then some r.src else none)

/-- All walks of exactly `n` undirected hops starting at `a`, each walk
stored in reverse order (current endpoint first, `a` last). -/
def walksFrom (db : DB) (a : String) : Nat → List (List String)
  | 0 => [[a]]
  | n + 1 => (walksFrom db a n).flatMap (fun w =>
      match w with
      | [] => []
      | x :: rest => (nbrs db x).map (fun y => y :: x :: rest))

/-- Try `f start`, `f (start+1)`, ... for `fuel` attempts, returning the
first `some`. -/
def firstHit (f : Nat → Option (List String)) : Nat → Nat → Option (List String)
  | 0, _ => none
  | fuel + 1, start =>
    match f start with
    | some v => some v
    | none => firstHit f fuel (start + 1)

/-- Model of the storage engine's `shortestPath((u1)-[:FRIENDS_WITH*]-(u2))`:
the node sequence (in path order, from `a` to `b`) of a minimum-hop
walk of at least one hop, if any exists.  Hop counts 1 .. `db.users.length`
suffice because a minimal walk never repeats a node. -/
def shortestPathNodes (db : DB) (a b : String) : Option (List String) :=
  (firstHit
    (fun n => (walksFrom db a n).find? (fun w => w.head? == some b))
    db.users.length 1).map List.reverse

/-- `check_connection` (src/app/services/neo4j_db.py:154-181): any-path
reachability via a `shortestPath` existence probe.  If either identity
has no node the `MATCH` yields no row and the result is `False`. -/
def check_connection (p1 p2 : String) (db : DB) : Except Err Bool :=
  if p1 == p2 then .error (.valueError "")
  else match findNode db p1, findNode db p2 with
    | some _, some _ => .ok (shortestPathNodes db p1 p2).isSome
    | _, _ => .ok false

/-- `check_direct_connection` (src/app/services/neo4j_db.py:183-210):
direct-edge check `(u1)-[:FRIENDS_WITH]->(u2)`. -/
def check_direct_connection (p1 p2 : String) (db : DB) : Except Err Bool :=
  if p1 == p2 then .error (.valueError "")
  else match findNode db p1, findNode db p2 with
    | some _, some _ => .ok (db.rels.any (fun r => r.src == p1 && r.tgt == p2))
    | _, _ => .ok false

/-- `create_connection` (src/app/services/neo4j_db.py:212-244): if no
direct edge `p1 -> p2` exists, `MERGE` both directed relationships
(each only if not already present); returns `True` even when the
`MATCH` binds no nodes (the code never inspects the run result). -/
def create_connection (p1 p2 : String) (db : DB) : Except Err Bool × DB :=
  if p1 == p2 then (.error (.valueError ""), db)
  else match check_direct_connection p1 p2 db with
    | .error e => (.error e, db)
    | .ok true => (.ok false, db)
    | .ok false =>
      match findNode db p1, findNode db p2 with
      | some _, some _ =>
        let db1 : DB :=
          if db.rels.any (fun r => r.src == p1 && r.tgt == p2) then db
          else { db with rels := db.rels ++ [⟨p1, p2⟩] }
        let db2 : DB :=
          if db1.rels.any (fun r => r.src == p2 && r.tgt == p1) then db1
          else { db1 with rels := db1.rels ++ [⟨p2, p1⟩] }
        (.ok true, db2)
      | _, _ => (.ok true, db)

/-- `get_num_of_connections` (src/app/services/neo4j_db.py:271-279).
On a missing user the code executes `return ValueError`, handing the
exception class back as a normal value. -/
def get_num_of_connections (p : String) (db : DB) : GetNum :=
  match get_user_in_db p db with
  | none => .excClass
  | some u => .int u.remaining_connections

/-- The per-node effect of
`SET u.remaining_connections = u.remaining_connections - 1` applied to
the node matched by phone number `p`. -/
def decAt (p : String) (u : UserNode) : UserNode :=
  if u.phonenumber == p then
    { u with remaining_connections := u.remaining_connections - 1 }
  else u

/-- `reduce_connection_count` (src/app/services/neo4j_db.py:281-295).
When `get_num_of_connections` yields the `ValueError` class, the
comparison `current_count <= 0` raises a `TypeError`. -/
def reduce_connection_count (p : String) (db : DB) : Except Err Int × DB :=
  match get_num_of_connections p db with
  | .excClass => (.error .typeError, db)
  | .int n =>
    if n ≤ 0 then (.error (.valueError ""), db)
    else
      let db2 : DB := { db with users := db.users.map (decAt p) }
      match findNode db2 p with
      | some u => (.ok u.remaining_connections, db2)
      | none => (.error .typeError, db2)

/-- Projection of a node to a `MinimalUser` (the `MinimalUser(**dict(node))`
construction; extra node properties are ignored by pydantic). -/
def minimalOf (db : DB) (ph : String) : MinimalUser :=
  match findNode db ph with
  | some u => ⟨u.user_id, u.name, u.phonenumber⟩
  | none => ⟨"", "", ""⟩

/-- `find_shortest_path` (src/app/services/neo4j_db.py:297-320).  The
`MATCH` requires both nodes; when no row is produced the code raises
`ValueError("No connection path found between the two users.")`. -/
def find_shortest_path (p1 p2 : String) (db : DB) : Except Err (List MinimalUser) :=
  match findNode db p1, findNode db p2 with
  | some _, some _ =>
    match shortestPathNodes db p1 p2 with
    | some w => .ok (w.map (minimalOf db))
    | none => .error noPathFound
  | _, _ => .error noPathFound

/-- Trails (relationship-unique paths) of exactly `n` hops starting at
`start`: each trail keeps its node sequence (start first) and the list
of traversed relationship indices.  This models the Cypher pattern
`(user)-[:FRIENDS_WITH*1..k]-(other)` whose matches may not repeat a
relationship. -/
def trailLayer (db : DB) (start : String) : Nat → List (List String × List Nat)
  | 0 => [([start], [])]
  | n + 1 => (trailLayer db start n).flatMap (fun t =>
      (List.range db.rels.length).filterMap (fun i =>
        match db.rels[i]? with
        | some r =>
          let cur := t.1.getLastD start
          if (r.src == cur || r.tgt == cur) && !(t.2.contains i) then
            some (t.1 ++ [if r.src == cur then r.tgt else r.src], t.2 ++ [i])
          else none
        | none => none))

/-- All paths matched by `(user {phonenumber})-[:FRIENDS_WITH*1..k]-(other)`:
empty when the centre node does not exist. -/
def egoPaths (db : DB) (phone : String) (k : Nat) : List (List String × List Nat) :=
  if (findNode db phone).isSome then
    (List.range k).flatMap (fun i => trailLayer db phone (i + 1))
  else []

/-- The `nodes_dict` accumulation of `get_user_graph`: every node of
every path, first occurrence per `user_id` kept. -/
def collectNodes (db : DB) (paths : List (List String × List Nat)) : List MinimalUser :=
  paths.foldl (fun acc t =>
    t.1.foldl (fun acc2 ph =>
      match findNode db ph with
      | some u =>
        if acc2.any (fun m => m.user_id == u.user_id) then acc2
        else acc2 ++ [⟨u.user_id, u.name, u.phonenumber⟩]
      | none => acc2) acc) []

/-- The `edges_set` accumulation of `get_user_graph`: the
`(start_node.user_id, end_node.user_id)` pair of every traversed
relationship, in its *stored* direction, deduplicated as an ordered
pair. -/
def collectEdges (db : DB) (paths : List (List String × List Nat)) : List GraphEdge :=
  paths.foldl (fun acc t =>
    t.2.foldl (fun acc2 i =>
      match db.rels[i]? with
      | some r =>
        let e : GraphEdge := ⟨(minimalOf db r.src).user_id, (minimalOf db r.tgt).user_id⟩
        if acc2.contains e then acc2 else acc2 ++ [e]
      | none => acc2) acc) []

/-- `get_user_graph` (src/app/services/neo4j_db.py:322-353). -/
def get_user_graph (phone : String) (degrees : Int) (db : DB) : Except Err GraphResponse :=
  if degrees < 1 then .error (.valueError "")
  else .ok { nodes := collectNodes db (egoPaths db phone degrees.toNat),
             edges := collectEdges db (egoPaths db phone degrees.toNat) }

/-- Outcome of the `/users/connect` route handler. -/
inductive RouteRes where
  | created (updated_connection : Int)
  | httpErr (code : Nat) (detail : String)
  | excReturned (code : Nat) (detail : String)
  | pyError (e : Err)
deriving DecidableEq, Repr

/-- `create_connection_route` (src/app/routes/users.py:33-74): quota
check, receiver lookup, direct-edge check (whose `ValueError` is mapped
to a 500), then edge creation and quota decrement (whose failures are
*returned* as an `HTTPException` object, not raised). -/
def create_connection_route (sender receiver : String) (db : DB) : RouteRes × DB :=
  match get_num_of_connections sender db with
  | .excClass => (.pyError .typeError, db)
  | .int n =>
    if n ≤ 0 then
      (.httpErr 405 "Cannot create connection. User has reached maximum connections.", db)
    else match get_user_in_db receiver db with
    | none => (.httpErr 400 "Cannot create connection. Receiver user not found.", db)
    | some _ =>
      match check_direct_connection sender receiver db with
      | .error _ => (.httpErr 500 "Server error", db)
      | .ok true =>
        (.httpErr 400 "Cannot create connection. Users are already directly connected.", db)
      | .ok false =>
        match create_connection sender receiver db with
        | (.error _, db1) => (.excReturned 500 "Server error", db1)
        | (.ok _, db1) =>
          match reduce_connection_count sender db1 with
          | (.error _, db2) => (.excReturned 500 "Server error", db2)
          | (.ok m, db2) => (.created m, db2)

/-- Decidable equality for `Except`, so that concrete runs can be
checked by `decide`. -/
instance {ε α : Type} [DecidableEq ε] [DecidableEq α] : DecidableEq (Except ε α) := fun x y =>
  match x, y with
  | .ok a, .ok b =>
    if h : a = b then .isTrue (congrArg Except.ok h)
    else .isFalse (fun hh => h (Except.ok.inj hh))
  | .error a, .error b =>
    if h : a = b then .isTrue (congrArg Except.error h)
    else .isFalse (fun hh => h (Except.error.inj hh))
  | .ok _, .error _ => .isFalse (fun hh => Except.noConfusion hh)
  | .error _, .ok _ => .isFalse (fun hh => Except.noConfusion hh)

/-! ### Concrete fixtures -/

/-- The empty database. -/
def db0 : DB := { users := [], rels := [], nextId := 0 }

/-- A placeholder signup payload: no name, no password. -/
def basePlaceholder : BaseUser := { name := none, phonenumber := "P", hashed_password := none }

/-- A complete signup payload for the same phone number. -/
def baseFull : BaseUser := { name := some "Alice", phonenumber := "P", hashed_password := some "h" }

/-- The database after creating the placeholder user. -/
def dbP : DB := (create_user_in_db basePlaceholder db0).2

/-- Convenience constructor for a verified user node. -/
def mkU (i n p : String) (rc : Int) : UserNode :=
  { user_id := i, name := n, phonenumber := p, hashed_password := "h",
    created_at := "t", remaining_connections := rc, is_verified := true }

/-- The chain A–B–C–D–E, every logical edge stored as two directed
relationships (as `create_connection` stores them). -/
def chainDB : DB :=
  { users := [mkU "a" "A" "A" 3, mkU "b" "B" "B" 3, mkU "c" "C" "C" 3,
              mkU "d" "D" "D" 3, mkU "e" "E" "E" 3],
    rels := [⟨"A","B"⟩, ⟨"B","A"⟩, ⟨"B","C"⟩, ⟨"C","B"⟩,
             ⟨"C","D"⟩, ⟨"D","C"⟩, ⟨"D","E"⟩, ⟨"E","D"⟩],
    nextId := 5 }

/-- A single isolated user. -/
def dbA : DB := { users := [mkU "a" "A" "A" 3], rels := [], nextId := 1 }

/-- Sender A with remaining quota exactly 1, receiver B, unconnected. -/
def dbC3 : DB := { users := [mkU "a" "A" "A" 1, mkU "b" "B" "B" 3], rels := [], nextId := 2 }

/-- A user with exhausted quota next to one with quota 2. -/
def dbQ : DB := { users := [mkU "q" "Q" "Q" 0, mkU "r" "R" "R" 2], rels := [], nextId := 9 }

/-! ### Claim theorems (part 1) -/

/-- C1 (code bug): the upsert lifecycle is broken by the source bug
`is_verified=(node["is_verified"] or True)` in `get_user_in_db`.  The
stored placeholder user is unverified (`is_verified = false`), yet
upserting the same identity with a non-empty name and password — which
per the claim (and the function's own docstring) must update the record
in place — instead fails with the `AlreadyExists` HTTP 400 and leaves
the database unchanged. -/
theorem c1_upsert_lifecycle_bug :
    ((dbP.users.find? (fun u => u.phonenumber == "P")).map (fun u => u.is_verified)
      = some false)
  ∧ (create_user_in_db baseFull dbP).1
      = .error (.httpExc 400 "User already exists and is verified")
  ∧ (create_user_in_db baseFull dbP).2 = dbP := by decide

/-- C2 (code bug): the placeholder user is stored with
`is_verified = false`, but the lookup `get_user_in_db` reports
`is_verified = true` for it (line 150: `node["is_verified"] or True`),
contradicting the claim that `find` reports `false` for a placeholder. -/
theorem c2_is_verified_observed_bug :
    ((dbP.users.find? (fun u => u.phonenumber == "P")).map (fun u => u.is_verified)
      = some false)
  ∧ (get_user_in_db "P" dbP).map (fun u => u.is_verified) = some true := by decide

/-- C9 (code bug): for an identity with no User record,
`get_num_of_connections` executes `return ValueError`, handing back the
exception class as a normal value instead of failing with `NotFound`;
for an existing identity it does return the stored counter. -/
theorem c9_remaining_missing_bug :
    get_num_of_connections "Z" dbP = GetNum.excClass
  ∧ get_num_of_connections "P" dbP = GetNum.int 3 := by decide

/-- C4 (counterexample): `find_shortest_path` performs no
self-identity check, so `shortest_path(A, A)` does not fail with the
bare `ValueError` (`InvalidArgument`); on an isolated user it instead
raises the `NoPathFound` `ValueError`. -/
theorem c4_counterexample :
    find_shortest_path "A" "A" dbA = .error noPathFound
  ∧ find_shortest_path "A" "A" dbA ≠ .error invalidArgument := by decide

/-- C4 (amended): `direct(A,A)`, `reachable(A,A)` and `connect(A,A)`
all fail with the bare `ValueError` (`InvalidArgument`) for every
identity A, leaving the database untouched; `shortest_path(A,A)` has no
such check. -/
theorem c4_self_loop_amended (p : String) (db : DB) :
    check_connection p p db = .error invalidArgument
  ∧ check_direct_connection p p db = .error invalidArgument
  ∧ create_connection p p db = (.error invalidArgument, db) := by
  refine ⟨?_, ?_, ?_⟩ <;>
    simp [check_connection, check_direct_connection, create_connection, invalidArgument]

/-- C5 (counterexample): on the chain A–B–C–D–E, `get_user_graph`
with `degrees = 2` reports four edges — each logical edge once per
stored direction — not the two unordered-deduplicated edges
{(A,B),(B,C)} the claim promises. -/
theorem c5_counterexample :
    (get_user_graph "A" 2 chainDB).toOption.map GraphResponse.edges
      = some [⟨"a","b"⟩, ⟨"b","a"⟩, ⟨"b","c"⟩, ⟨"c","b"⟩]
  ∧ (get_user_graph "A" 2 chainDB).toOption.map GraphResponse.edges
      ≠ some [⟨"a","b"⟩, ⟨"b","c"⟩] := by decide

/-- C5 (amended): `get_user_graph` deduplicates edges by *ordered*
`(source, target)` user-id pair in stored direction, so each logical
edge appears once per direction.  On the chain A–B–C–D–E,
`ego_network(A, max_hops = 2)` returns exactly the nodes {A, B, C} (in
first-encounter order) and the edges {(a,b), (b,a), (b,c), (c,b)},
excluding D and E. -/
theorem c5_ego_ordered_dedup :
    get_user_graph "A" 2 chainDB
      = .ok { nodes := [⟨"a", "A", "A"⟩, ⟨"b", "B", "B"⟩, ⟨"c", "C", "C"⟩],
              edges := [⟨"a","b"⟩, ⟨"b","a"⟩, ⟨"b","c"⟩, ⟨"c","b"⟩] } := by decide

/-- C6 (counterexample): for a centre identity with no User record,
`get_user_graph` returns an empty `GraphResponse` as a normal result
instead of failing with `NotFound`. -/
theorem c6_counterexample :
    get_user_graph "QQ" 3 dbP = .ok { nodes := [], edges := [] } := by decide

/-- C6 (amended): whenever the centre identity resolves to no User
node and `max_hops` is positive, `ego_network` succeeds with empty node
and edge sets (the `MATCH` binds no path), rather than failing
`NotFound`. -/
theorem c6_missing_center_amended (db : DB) (c : String) (k : Int)
    (h1 : 1 ≤ k) (h2 : findNode db c = none) :
    get_user_graph c k db = .ok { nodes := [], edges := [] } := by
  have hk : ¬ k < 1 := by omega
  simp [get_user_graph, egoPaths, h2, hk, collectNodes, collectEdges]

/-- Witness for `c6_missing_center_amended` at a concrete input. -/
theorem c6_missing_center_witness :
    (1 : Int) ≤ 3 ∧ get_user_graph "QQ" 3 db0 = .ok { nodes := [], edges := [] } :=
  ⟨by decide, c6_missing_center_amended db0 "QQ" 3 (by decide) (by decide)⟩

/-- C3 (counterexample): with sender quota exactly 1 — "positive
remaining quota" as the claim demands — the first `connect(A,B)`
succeeds, but the second fails with the 405 `QuotaExhausted` rejection
(the quota check precedes the direct-edge check), not with the 400
`AlreadyConnected` rejection the claim promises. -/
theorem c3_counterexample :
    (create_connection_route "A" "B" dbC3).1 = .created 0
  ∧ (create_connection_route "A" "B" (create_connection_route "A" "B" dbC3).2).1
      = .httpErr 405 "Cannot create connection. User has reached maximum connections."
  ∧ (create_connection_route "A" "B" (create_connection_route "A" "B" dbC3).2).1
      ≠ .httpErr 400 "Cannot create connection. Users are already directly connected." := by
  decide

/-! ### Helper lemmas -/

/-- `find?` by phone number commutes with mapping a phone-preserving
update over the user list. -/
theorem find?_users_map (users : List UserNode) (f : UserNode → UserNode)
    (hf : ∀ u, (f u).phonenumber = u.phonenumber) (p : String) :
    (users.map f).find? (fun u => u.phonenumber == p)
      = (users.find? (fun u => u.phonenumber == p)).map f := by
  rw [List.find?_map]
  have hpred : ((fun u : UserNode => u.phonenumber == p) ∘ f)
      = (fun u : UserNode => u.phonenumber == p) := by
    funext u
    simp [Function.comp, hf]
  rw [hpred]

/-! ### Claim theorems (part 2) -/

/-- C10 (confirmed): when the two identities are distinct and at least
one of them has no User node, both the direct-edge check and the
any-path reachability check return `False` as a normal result — the
`MATCH` produces no row — rather than failing with `NotFound`. -/
theorem c10_missing_endpoint (a b : String) (db : DB) (hne : a ≠ b)
    (h : findNode db a = none ∨ findNode db b = none) :
    check_connection a b db = .ok false ∧ check_direct_connection a b db = .ok false := by
  have hab : (a == b) = false := beq_eq_false_iff_ne.mpr hne
  rcases h with h | h
  · constructor <;> simp [check_connection, check_direct_connection, hab, h]
  · cases hfa : findNode db a <;> constructor <;>
      simp [check_connection, check_direct_connection, hab, h, hfa]

/-- Witness for `c10_missing_endpoint` at a concrete input. -/
theorem c10_missing_endpoint_witness :
    ("A" : String) ≠ "Z"
  ∧ check_connection "A" "Z" dbP = .ok false
  ∧ check_direct_connection "A" "Z" dbP = .ok false :=
  ⟨by decide,
   (c10_missing_endpoint "A" "Z" dbP (by decide) (Or.inr (by decide))).1,
   (c10_missing_endpoint "A" "Z" dbP (by decide) (Or.inr (by decide))).2⟩

/-- C8 (confirmed): for an existing User, `reduce_connection_count`
fails with the bare `ValueError` (`QuotaExhausted`) and leaves the
database unchanged when the stored counter is ≤ 0; otherwise it
subtracts exactly 1, returns the new value, and the stored counter
becomes exactly one less. -/
theorem c8_quota_floor (db : DB) (p : String) (u : UserNode)
    (h : findNode db p = some u) :
    (u.remaining_connections ≤ 0 →
      reduce_connection_count p db = (.error (.valueError ""), db))
  ∧ (0 < u.remaining_connections →
      (reduce_connection_count p db).1 = .ok (u.remaining_connections - 1)
      ∧ ((findNode (reduce_connection_count p db).2 p).map
          (fun v => v.remaining_connections) = some (u.remaining_connections - 1))) := by
  have hg : get_num_of_connections p db = .int u.remaining_connections := by
    simp [get_num_of_connections, get_user_in_db, h]
  constructor
  · intro hle
    simp [reduce_connection_count, hg, hle]
  · intro hpos
    have hnle : ¬ u.remaining_connections ≤ 0 := by omega
    have h0 : db.users.find? (fun v => v.phonenumber == p) = some u := h
    have hup : u.phonenumber = p := by
      have := List.find?_some h0
      simpa using this
    have hcomp : ((fun v : UserNode => v.phonenumber == p) ∘ decAt p)
        = (fun v : UserNode => v.phonenumber == p) := by
      funext v
      have : (decAt p v).phonenumber = v.phonenumber := by
        unfold decAt
        split <;> rfl
      simp [Function.comp, this]
    have hdecu : decAt p u
        = { u with remaining_connections := u.remaining_connections - 1 } := by
      simp [decAt, hup]
    simp [reduce_connection_count, hg, hnle, findNode, List.find?_map, hcomp, h0, hdecu]

/-- Witness for `c8_quota_floor`: user Q has quota 0 (decrement fails,
state unchanged), user R has quota 2 (decrement returns 1 and stores 1). -/
theorem c8_quota_floor_witness :
    reduce_connection_count "Q" dbQ = (.error (.valueError ""), dbQ)
  ∧ (reduce_connection_count "R" dbQ).1 = .ok 1
  ∧ ((findNode (reduce_connection_count "R" dbQ).2 "R").map
      (fun v => v.remaining_connections) = some 1) :=
  ⟨(c8_quota_floor dbQ "Q" (mkU "q" "Q" "Q" 0) (by decide)).1 (by decide),
   ((c8_quota_floor dbQ "R" (mkU "r" "R" "R" 2) (by decide)).2 (by decide)).1,
   ((c8_quota_floor dbQ "R" (mkU "r" "R" "R" 2) (by decide)).2 (by decide)).2⟩

/-! ### Helper lemmas for the connect route -/

/-- `get_num_of_connections` on an existing user returns its counter
(the `or True` rewrite leaves `remaining_connections` untouched). -/
theorem get_num_eq (db : DB) (p : String) (u : UserNode) (h : findNode db p = some u) :
    get_num_of_connections p db = .int u.remaining_connections := by
  simp [get_num_of_connections, get_user_in_db, h]

/-- `decAt` preserves phone numbers, so phone-number predicates compose
away. -/
theorem comp_phone_decAt (p q : String) :
    ((fun v : UserNode => v.phonenumber == q) ∘ decAt p)
      = (fun v : UserNode => v.phonenumber == q) := by
  funext v
  have hph : (decAt p v).phonenumber = v.phonenumber := by
    unfold decAt
    split <;> rfl
  simp [Function.comp, hph]

/-- Looking any phone `q` up after the decrement-update keyed by `p`
finds the updated image of the original node. -/
theorem findNode_map_decAt (db : DB) (p q : String) (u : UserNode)
    (h : findNode db q = some u) :
    (db.users.map (decAt p)).find? (fun v => v.phonenumber == q) = some (decAt p u) := by
  rw [List.find?_map, comp_phone_decAt]
  have h0 : db.users.find? (fun v => v.phonenumber == q) = some u := h
  rw [h0]
  rfl

/-- A found node's phone number is the lookup key. -/
theorem phone_of_findNode (db : DB) (p : String) (u : UserNode)
    (h : findNode db p = some u) : u.phonenumber = p := by
  have h0 : db.users.find? (fun v => v.phonenumber == p) = some u := h
  have := List.find?_some h0
  simpa using this

/-- `decAt` at the matched node. -/
theorem decAt_self (p : String) (u : UserNode) (hup : u.phonenumber = p) :
    decAt p u = { u with remaining_connections := u.remaining_connections - 1 } := by
  simp [decAt, hup]

/-- Full evaluation of `reduce_connection_count` on an existing user
with positive quota. -/
theorem reduce_pos_eq (db : DB) (p : String) (u : UserNode)
    (h : findNode db p = some u) (hpos : 0 < u.remaining_connections) :
    reduce_connection_count p db
      = (.ok (u.remaining_connections - 1), { db with users := db.users.map (decAt p) }) := by
  have hg := get_num_eq db p u h
  have hnle : ¬ u.remaining_connections ≤ 0 := by omega
  have h0 : db.users.find? (fun v => v.phonenumber == p) = some u := h
  have hdec := decAt_self p u (phone_of_findNode db p u h)
  simp [reduce_connection_count, hg, hnle, findNode, List.find?_map, comp_phone_decAt, h0, hdec]

/-! ### Claim theorems (part 3) -/


/-- C3 (amended): for distinct existing identities A and B with no
relationship between them in either direction and sender quota at least
2, the first `connect(A,B)` succeeds: it appends both directed
relationships and decrements A's stored quota by exactly 1; the second
call fails with the 400 `AlreadyConnected` rejection and returns the
state unchanged (no mutation, no further decrement).  (With quota
exactly 1 the second call instead fails 405 `QuotaExhausted`, because
the route checks the quota before the direct-edge check.) -/
theorem c3_connect_twice_amended (db : DB) (a b : String) (ua ub : UserNode)
    (hne : a ≠ b)
    (hua : findNode db a = some ua)
    (hub : findNode db b = some ub)
    (hrc : 2 ≤ ua.remaining_connections)
    (hAB : db.rels.any (fun r => r.src == a && r.tgt == b) = false)
    (hBA : db.rels.any (fun r => r.src == b && r.tgt == a) = false) :
    (create_connection_route a b db).1 = .created (ua.remaining_connections - 1)
  ∧ (create_connection_route a b db).2.rels = db.rels ++ [RelEdge.mk a b, RelEdge.mk b a]
  ∧ ((findNode (create_connection_route a b db).2 a).map
      (fun v => v.remaining_connections) = some (ua.remaining_connections - 1))
  ∧ create_connection_route a b (create_connection_route a b db).2
      = (.httpErr 400 "Cannot create connection. Users are already directly connected.",
         (create_connection_route a b db).2) := by
  have hab : (a == b) = false := beq_eq_false_iff_ne.mpr hne
  have hba : (b == a) = false := beq_eq_false_iff_ne.mpr (Ne.symm hne)
  have hgn : get_num_of_connections a db = .int ua.remaining_connections :=
    get_num_eq db a ua hua
  have hnle : ¬ ua.remaining_connections ≤ 0 := by omega
  have hgub : get_user_in_db b db
      = some { ub with is_verified := ub.is_verified || true } := by
    simp [get_user_in_db, hub]
  have hcd : check_direct_connection a b db = .ok false := by
    simp [check_direct_connection, hab, hua, hub, hAB]
  have hany2 : ((db.rels ++ [RelEdge.mk a b]).any
      (fun r => r.src == b && r.tgt == a)) = false := by
    rw [List.any_append, hBA]
    simp [hab]
  have hcc : create_connection a b db
      = (.ok true, { db with rels := db.rels ++ [RelEdge.mk a b, RelEdge.mk b a] }) := by
    simp [create_connection, hab, hcd, hua, hub, hAB, hany2]
  have hua2 : findNode { db with rels := db.rels ++ [RelEdge.mk a b, RelEdge.mk b a] } a
      = some ua := hua
  have hred := reduce_pos_eq
    { db with rels := db.rels ++ [RelEdge.mk a b, RelEdge.mk b a] } a ua hua2 (by omega)
  have hroute1 : create_connection_route a b db
      = (.created (ua.remaining_connections - 1),
         { users := db.users.map (decAt a),
           rels := db.rels ++ [RelEdge.mk a b, RelEdge.mk b a],
           nextId := db.nextId }) := by
    simp [create_connection_route, hgn, hnle, hgub, hcd, hcc, hred]
  have hphua : ua.phonenumber = a := phone_of_findNode db a ua hua
  have hphub : ub.phonenumber = b := phone_of_findNode db b ub hub
  have hdua : decAt a ua
      = { ua with remaining_connections := ua.remaining_connections - 1 } :=
    decAt_self a ua hphua
  have hdub : decAt a ub = ub := by
    simp [decAt, hphub, hba]
  have hua3 : findNode
      { users := db.users.map (decAt a),
        rels := db.rels ++ [RelEdge.mk a b, RelEdge.mk b a],
        nextId := db.nextId } a
      = some { ua with remaining_connections := ua.remaining_connections - 1 } := by
    have h1 := findNode_map_decAt db a a ua hua
    rw [hdua] at h1
    exact h1
  have hub3 : findNode
      { users := db.users.map (decAt a),
        rels := db.rels ++ [RelEdge.mk a b, RelEdge.mk b a],
        nextId := db.nextId } b
      = some ub := by
    have h1 := findNode_map_decAt db a b ub hub
    rw [hdub] at h1
    exact h1
  have hgn2 : get_num_of_connections a
      { users := db.users.map (decAt a),
        rels := db.rels ++ [RelEdge.mk a b, RelEdge.mk b a],
        nextId := db.nextId }
      = .int (ua.remaining_connections - 1) :=
    get_num_eq _ a _ hua3
  have hnle2 : ¬ ua.remaining_connections - 1 ≤ 0 := by omega
  have hgub2 : get_user_in_db b
      { users := db.users.map (decAt a),
        rels := db.rels ++ [RelEdge.mk a b, RelEdge.mk b a],
        nextId := db.nextId }
      = some { ub with is_verified := ub.is_verified || true } := by
    simp [get_user_in_db, hub3]
  have hcd2 : check_direct_connection a b
      { users := db.users.map (decAt a),
        rels := db.rels ++ [RelEdge.mk a b, RelEdge.mk b a],
        nextId := db.nextId }
      = .ok true := by
    simp [check_direct_connection, hab, hua3, hub3]
  have hroute2 : create_connection_route a b
      { users := db.users.map (decAt a),
        rels := db.rels ++ [RelEdge.mk a b, RelEdge.mk b a],
        nextId := db.nextId }
      = (.httpErr 400 "Cannot create connection. Users are already directly connected.",
         { users := db.users.map (decAt a),
           rels := db.rels ++ [RelEdge.mk a b, RelEdge.mk b a],
           nextId := db.nextId }) := by
    simp [create_connection_route, hgn2, hnle2, hgub2, hcd2]
  refine ⟨by rw [hroute1], ?_, ?_, ?_⟩
  · rw [hroute1]
  · rw [hroute1, hua3]
    rfl
  · rw [hroute1]
    exact hroute2

/-- Fresh pair of unconnected users, sender quota 3. -/
def dbW3 : DB := { users := [mkU "a" "A" "A" 3, mkU "b" "B" "B" 3], rels := [], nextId := 7 }

/-- Witness for `c3_connect_twice_amended` at a concrete input. -/
theorem c3_connect_twice_witness :
    (create_connection_route "A" "B" dbW3).1 = .created 2
  ∧ (create_connection_route "A" "B" dbW3).2.rels
      = dbW3.rels ++ [RelEdge.mk "A" "B", RelEdge.mk "B" "A"]
  ∧ ((findNode (create_connection_route "A" "B" dbW3).2 "A").map
      (fun v => v.remaining_connections) = some 2)
  ∧ create_connection_route "A" "B" (create_connection_route "A" "B" dbW3).2
      = (.httpErr 400 "Cannot create connection. Users are already directly connected.",
         (create_connection_route "A" "B" dbW3).2) :=
  c3_connect_twice_amended dbW3 "A" "B" (mkU "a" "A" "A" 3) (mkU "b" "B" "B" 3)
    (by decide) (by decide) (by decide) (by decide) (by decide) (by decide)

/-! ### Walk machinery for the shortest-path claim -/

/-- All phone numbers with a User node. -/
def userPhones (db : DB) : List String := db.users.map (fun u => u.phonenumber)

/-- Database integrity: every stored relationship joins two existing
User nodes. -/
def RelsWf (db : DB) : Prop :=
  ∀ r ∈ db.rels, r.src ∈ userPhones db ∧ r.tgt ∈ userPhones db

instance (db : DB) : Decidable (RelsWf db) :=
  inferInstanceAs (Decidable (∀ r ∈ db.rels, r.src ∈ userPhones db ∧ r.tgt ∈ userPhones db))

/-- Undirected adjacency as a proposition. -/
def adjP (db : DB) (x y : String) : Prop := adjB db x y = true

instance (db : DB) : DecidableRel (adjP db) :=
  fun x y => inferInstanceAs (Decidable (adjB db x y = true))

/-- A walk from `A` to `B`: a nonempty node sequence with consecutive
undirected adjacency, starting at `A` and ending at `B`. -/
def WalkFromTo (db : DB) (A B : String) (w : List String) : Prop :=
  List.Chain' (adjP db) w ∧ w.head? = some A ∧ w.getLast? = some B

/-- Executable chain check used to decide `WalkFromTo`. -/
def chainB (db : DB) : List String → Bool
  | [] => true
  | [_] => true
  | x :: y :: rest => adjB db x y && chainB db (y :: rest)

theorem chainB_iff (db : DB) : ∀ (w : List String),
    chainB db w = true ↔ List.Chain' (adjP db) w := by
  intro w
  induction w with
  | nil => simp [chainB]
  | cons x t ih =>
    cases t with
    | nil => simp [chainB]
    | cons y rest =>
      rw [chainB, Bool.and_eq_true, List.chain'_cons]
      exact and_congr Iff.rfl ih

instance (db : DB) (A B : String) (w : List String) : Decidable (WalkFromTo db A B w) :=
  decidable_of_iff (chainB db w = true ∧ w.head? = some A ∧ w.getLast? = some B)
    (and_congr (chainB_iff db w) Iff.rfl)

/-- Two identities are connected when some walk joins them. -/
def ConnectedW (db : DB) (A B : String) : Prop := ∃ w, WalkFromTo db A B w

/-- Membership in `nbrs` is exactly undirected adjacency. -/
theorem mem_nbrs (db : DB) (x y : String) : y ∈ nbrs db x ↔ adjP db x y := by
  unfold nbrs adjP adjB
  simp only [List.mem_append, List.mem_filterMap, Option.ite_none_right_eq_some,
    Option.some.injEq, List.any_eq_true, Bool.or_eq_true, Bool.and_eq_true, beq_iff_eq]
  constructor
  · rintro (⟨r, hr, h1, h2⟩ | ⟨r, hr, h1, h2⟩)
    · exact ⟨r, hr, Or.inl ⟨h1, h2⟩⟩
    · exact ⟨r, hr, Or.inr ⟨h2, h1⟩⟩
  · rintro ⟨r, hr, ⟨h1, h2⟩ | ⟨h1, h2⟩⟩
    · exact Or.inl ⟨r, hr, h1, h2⟩
    · exact Or.inr ⟨r, hr, h2, h1⟩

/-- Adjacency is symmetric (each direction of the stored pair matches). -/
theorem adjP_symm (db : DB) {x y : String} (h : adjP db x y) : adjP db y x := by
  unfold adjP adjB at h ⊢
  simp only [List.any_eq_true, Bool.or_eq_true, Bool.and_eq_true, beq_iff_eq] at h ⊢
  obtain ⟨r, hr, hc⟩ := h
  exact ⟨r, hr, hc.symm⟩

/-- Chains of adjacency survive reversal. -/
theorem chain'_adjP_reverse (db : DB) (w : List String) :
    List.Chain' (adjP db) w.reverse ↔ List.Chain' (adjP db) w := by
  rw [List.chain'_reverse]
  constructor
  · intro h
    exact h.imp (fun a b hab => adjP_symm db hab)
  · intro h
    exact h.imp (fun a b hab => adjP_symm db hab)

/-- `walksFrom db a n` holds exactly the reversed walks of `n` hops that
start at `a`. -/
theorem mem_walksFrom (db : DB) (a : String) :
    ∀ (n : Nat) (w : List String),
      w ∈ walksFrom db a n ↔
        (w.length = n + 1 ∧ List.Chain' (adjP db) w ∧ w.getLast? = some a) := by
  intro n
  induction n with
  | zero =>
    intro w
    constructor
    · intro hw
      simp only [walksFrom, List.mem_singleton] at hw
      subst hw
      simp
    · rintro ⟨hlen, _, hlast⟩
      cases w with
      | nil => simp at hlen
      | cons x t =>
        cases t with
        | nil =>
          simp only [List.getLast?_singleton, Option.some.injEq] at hlast
          subst hlast
          simp [walksFrom]
        | cons u v =>
          simp only [List.length_cons] at hlen
          omega
  | succ n ih =>
    intro w
    constructor
    · intro hw
      simp only [walksFrom, List.mem_flatMap] at hw
      obtain ⟨w1, hw1, hw2⟩ := hw
      obtain ⟨hlen1, hch1, hlast1⟩ := (ih w1).mp hw1
      cases w1 with
      | nil => simp at hlen1
      | cons x rest =>
        simp only [List.mem_map] at hw2
        obtain ⟨y, hy, rfl⟩ := hw2
        have hadj : adjP db x y := (mem_nbrs db x y).mp hy
        refine ⟨?_, ?_, ?_⟩
        · simp only [List.length_cons] at hlen1 ⊢
          omega
        · exact List.chain'_cons.mpr ⟨adjP_symm db hadj, hch1⟩
        · rw [List.getLast?_cons_cons]
          exact hlast1
    · rintro ⟨hlen, hch, hlast⟩
      cases w with
      | nil => simp at hlen
      | cons y t =>
        cases t with
        | nil =>
          simp only [List.length_cons, List.length_nil] at hlen
          omega
        | cons x rest =>
          have hlen1 : (x :: rest).length = n + 1 := by
            simp only [List.length_cons] at hlen ⊢
            omega
          have hsplit := List.chain'_cons.mp hch
          have hlast1 : (x :: rest).getLast? = some a := by
            rw [List.getLast?_cons_cons] at hlast
            exact hlast
          have hw1 : (x :: rest) ∈ walksFrom db a n :=
            (ih (x :: rest)).mpr ⟨hlen1, hsplit.2, hlast1⟩
          simp only [walksFrom, List.mem_flatMap]
          refine ⟨x :: rest, hw1, ?_⟩
          simp only [List.mem_map]
          exact ⟨y, (mem_nbrs db x y).mpr (adjP_symm db hsplit.1), rfl⟩

/-- If `firstHit` succeeds, it does so at the first index where `f`
succeeds. -/
theorem firstHit_some (f : Nat → Option (List String)) :
    ∀ (fuel s : Nat) (v : List String), firstHit f fuel s = some v →
      ∃ n, s ≤ n ∧ n < s + fuel ∧ f n = some v ∧ ∀ m, s ≤ m → m < n → f m = none := by
  intro fuel
  induction fuel with
  | zero =>
    intro s v h
    simp [firstHit] at h
  | succ fuel ih =>
    intro s v h
    unfold firstHit at h
    cases hfs : f s with
    | some w =>
      rw [hfs] at h
      simp only [Option.some.injEq] at h
      subst h
      exact ⟨s, Nat.le_refl s, by omega, hfs, fun m h1 h2 => by omega⟩
    | none =>
      rw [hfs] at h
      obtain ⟨n, h1, h2, h3, h4⟩ := ih (s + 1) v h
      refine ⟨n, by omega, by omega, h3, ?_⟩
      intro m hm1 hm2
      rcases Nat.eq_or_lt_of_le hm1 with rfl | hlt
      · exact hfs
      · exact h4 m (by omega) hm2

/-- If `firstHit` fails, `f` fails throughout the scanned range. -/
theorem firstHit_none (f : Nat → Option (List String)) :
    ∀ (fuel s : Nat), firstHit f fuel s = none →
      ∀ n, s ≤ n → n < s + fuel → f n = none := by
  intro fuel
  induction fuel with
  | zero =>
    intro s _ n h1 h2
    omega
  | succ fuel ih =>
    intro s h n h1 h2
    unfold firstHit at h
    cases hfs : f s with
    | some w =>
      rw [hfs] at h
      exact absurd h (by simp)
    | none =>
      rw [hfs] at h
      rcases Nat.eq_or_lt_of_le h1 with rfl | hlt
      · exact hfs
      · exact ih (s + 1) h n (by omega) (by omega)

/-- Any chain can be thinned to a duplicate-free sub-chain with the
same endpoints. -/
theorem chain'_shorten {α : Type} {R : α → α → Prop} :
    ∀ (N : Nat) (w : List α), w.length ≤ N → List.Chain' R w →
      ∃ w2, w2.Sublist w ∧ List.Chain' R w2 ∧ w2.head? = w.head?
        ∧ w2.getLast? = w.getLast? ∧ w2.Nodup := by
  intro N
  induction N with
  | zero =>
    intro w hw _
    have hnil : w = [] := List.eq_nil_of_length_eq_zero (Nat.le_zero.mp hw)
    subst hnil
    exact ⟨[], List.Sublist.refl [], List.chain'_nil, rfl, rfl, List.nodup_nil⟩
  | succ N ih =>
    intro w hw hch
    by_cases hnd : w.Nodup
    · exact ⟨w, List.Sublist.refl w, hch, rfl, rfl, hnd⟩
    · cases w with
      | nil => exact absurd List.nodup_nil hnd
      | cons c t =>
        by_cases hct : c ∈ t
        · obtain ⟨t1, t2, rfl⟩ := List.append_of_mem hct
          have hsfx2 : (c :: t2) <:+ (c :: (t1 ++ c :: t2)) := ⟨c :: t1, by simp⟩
          have hch2 : List.Chain' R (c :: t2) := hch.suffix hsfx2
          have hlen2 : (c :: t2).length ≤ N := by
            simp only [List.length_cons, List.length_append] at hw ⊢
            omega
          obtain ⟨w3, hsub3, hch3, hh3, hl3, hnd3⟩ := ih (c :: t2) hlen2 hch2
          have hsubl : (c :: t2).Sublist (c :: (t1 ++ c :: t2)) :=
            (List.sublist_append_right t1 (c :: t2)).cons c
          refine ⟨w3, hsub3.trans hsubl, hch3, ?_, ?_, hnd3⟩
          · rw [hh3]
            rfl
          · rw [hl3]
            have h1 : c :: (t1 ++ c :: t2) = (c :: t1) ++ (c :: t2) := by simp
            rw [h1, List.getLast?_append]
            cases hgl : (c :: t2).getLast? with
            | none => exact absurd (List.getLast?_eq_none_iff.mp hgl) (by simp)
            | some z => rfl
        · have hndt : ¬ t.Nodup := by
            intro h
            exact hnd (List.nodup_cons.mpr ⟨hct, h⟩)
          have hcht : List.Chain' R t := hch.tail
          have hlent : t.length ≤ N := by
            simp only [List.length_cons] at hw
            omega
          obtain ⟨t3, hsub3, hch3, hh3, hl3, hnd3⟩ := ih t hlent hcht
          have htne : t ≠ [] := by
            rintro rfl
            exact hndt List.nodup_nil
          have ht3ne : t3 ≠ [] := by
            intro h
            subst h
            cases t with
            | nil => exact htne rfl
            | cons u v => simp at hh3
          refine ⟨c :: t3, hsub3.cons₂ c, ?_, rfl, ?_, ?_⟩
          · rw [List.chain'_cons']
            refine ⟨?_, hch3⟩
            intro y hy
            rw [hh3] at hy
            exact (List.chain'_cons'.mp hch).1 y hy
          · cases t3 with
            | nil => exact absurd rfl ht3ne
            | cons u3 v3 =>
              cases t with
              | nil => exact absurd rfl htne
              | cons u v =>
                rw [List.getLast?_cons_cons, List.getLast?_cons_cons]
                exact hl3
          · exact List.nodup_cons.mpr ⟨fun hc3 => hct (hsub3.subset hc3), hnd3⟩

/-- Under database integrity every node of a walk of at least one hop
is the phone number of an existing User. -/
theorem walk_mem_phones (db : DB) (wf : RelsWf db) :
    ∀ (w : List String), List.Chain' (adjP db) w → 2 ≤ w.length →
      ∀ x ∈ w, x ∈ userPhones db := by
  intro w
  induction w with
  | nil =>
    intro _ h
    simp at h
  | cons c t ih =>
    intro hch hlen x hx
    cases t with
    | nil => simp at hlen
    | cons d t2 =>
      have hadj : adjP db c d := (List.chain'_cons.mp hch).1
      have hcd : c ∈ userPhones db ∧ d ∈ userPhones db := by
        unfold adjP adjB at hadj
        simp only [List.any_eq_true, Bool.or_eq_true, Bool.and_eq_true, beq_iff_eq] at hadj
        obtain ⟨r, hr, hcase⟩ := hadj
        rcases hcase with ⟨h1, h2⟩ | ⟨h1, h2⟩
        · constructor
          · rw [← h1]
            exact (wf r hr).1
          · rw [← h2]
            exact (wf r hr).2
        · constructor
          · rw [← h2]
            exact (wf r hr).2
          · rw [← h1]
            exact (wf r hr).1
      rcases List.mem_cons.mp hx with rfl | hx2
      · exact hcd.1
      · cases t2 with
        | nil =>
          have hxd : x = d := by simpa using hx2
          subst hxd
          exact hcd.2
        | cons e t3 =>
          exact ih (List.chain'_cons.mp hch).2 (by simp) x hx2

/-- A walk between distinct endpoints has at least two nodes. -/
theorem walk_two_le (db : DB) (A B : String) (hne : A ≠ B) (w : List String)
    (hw : WalkFromTo db A B w) : 2 ≤ w.length := by
  obtain ⟨_, hh, hl⟩ := hw
  cases w with
  | nil => simp at hh
  | cons x t =>
    cases t with
    | nil =>
      simp only [List.head?_cons, Option.some.injEq] at hh
      simp only [List.getLast?_singleton, Option.some.injEq] at hl
      subst hh
      exact absurd hl hne
    | cons u v =>
      simp only [List.length_cons]
      omega

/-- A forward walk of `m` hops witnesses a successful probe at `m`. -/
theorem walk_to_find? (db : DB) (A B : String) (hne : A ≠ B) (w : List String)
    (hwk : WalkFromTo db A B w) :
    (walksFrom db A (w.length - 1)).find? (fun v => v.head? == some B) ≠ none := by
  obtain ⟨hch, hh, hl⟩ := hwk
  have h2 : 2 ≤ w.length := walk_two_le db A B hne w ⟨hch, hh, hl⟩
  have hmem : w.reverse ∈ walksFrom db A (w.length - 1) := by
    rw [mem_walksFrom]
    refine ⟨?_, ?_, ?_⟩
    · rw [List.length_reverse]
      omega
    · exact (chain'_adjP_reverse db w).mpr hch
    · rw [List.getLast?_reverse]
      exact hh
  intro hnone
  have hpred := List.find?_eq_none.mp hnone w.reverse hmem
  have hyes : (w.reverse.head? == some B) = true := by
    rw [List.head?_reverse, hl]
    exact beq_self_eq_true _
  exact hpred hyes

/-- A successful probe at `n` yields a forward walk of `n` hops. -/
theorem find?_to_walk (db : DB) (A B : String) (n : Nat) (v : List String)
    (hfv : (walksFrom db A n).find? (fun x => x.head? == some B) = some v) :
    WalkFromTo db A B v.reverse ∧ v.length = n + 1 := by
  have hmem := List.mem_of_find?_eq_some hfv
  have hpred := List.find?_some hfv
  rw [mem_walksFrom] at hmem
  obtain ⟨hlen, hch, hlast⟩ := hmem
  have hhead : v.head? = some B := by
    have hb : (v.head? == some B) = true := hpred
    exact beq_iff_eq.mp hb
  refine ⟨⟨(chain'_adjP_reverse db v).mpr hch, ?_, ?_⟩, hlen⟩
  · rw [List.head?_reverse]
    exact hlast
  · rw [List.getLast?_reverse]
    exact hhead

/-- Every walk can be thinned to one of at most `db.users.length`
nodes with the same endpoints and no greater length. -/
theorem walk_shorten_bounded (db : DB) (A B : String) (wf : RelsWf db) (hne : A ≠ B)
    (w : List String) (hwk : WalkFromTo db A B w) :
    ∃ w3, WalkFromTo db A B w3 ∧ 2 ≤ w3.length ∧ w3.length ≤ db.users.length
      ∧ w3.length ≤ w.length := by
  obtain ⟨hch, hh, hl⟩ := hwk
  obtain ⟨w3, hsub, hch3, hh3, hl3, hnd3⟩ := chain'_shorten w.length w (Nat.le_refl _) hch
  have hwk3 : WalkFromTo db A B w3 := ⟨hch3, hh3.trans hh, hl3.trans hl⟩
  have h23 : 2 ≤ w3.length := walk_two_le db A B hne w3 hwk3
  have hsubset : ∀ x ∈ w3, x ∈ userPhones db := walk_mem_phones db wf w3 hch3 h23
  have hle : w3.length ≤ (userPhones db).length :=
    (List.Nodup.subperm hnd3 (fun x hx => hsubset x hx)).length_le
  have hlen : (userPhones db).length = db.users.length := List.length_map _ _
  exact ⟨w3, hwk3, h23, by omega, hsub.length_le⟩

/-- C7 (confirmed): for distinct identities over an integrity-respecting
database, when the two identities are connected the shortest-path query
succeeds and returns the projections (id, name, phone) of the nodes of
a walk of minimal length, in path order with both endpoints included;
when they are not connected, or when either identity resolves to no
User node, it fails with the `NoPathFound` `ValueError`. -/
theorem c7_shortest_path (db : DB) (A B : String) (wf : RelsWf db) (hne : A ≠ B) :
    (ConnectedW db A B →
        (shortestPathNodes db A B).isSome = true
      ∧ ∀ w, shortestPathNodes db A B = some w →
          WalkFromTo db A B w
          ∧ (∀ w2, WalkFromTo db A B w2 → w.length ≤ w2.length)
          ∧ (∀ uA uB, findNode db A = some uA → findNode db B = some uB →
              find_shortest_path A B db = .ok (w.map (minimalOf db))))
  ∧ (¬ ConnectedW db A B → find_shortest_path A B db = .error noPathFound)
  ∧ ((findNode db A = none ∨ findNode db B = none) →
      find_shortest_path A B db = .error noPathFound) := by
  refine ⟨?_, ?_, ?_⟩
  · intro hconn
    obtain ⟨w0, hw0⟩ := hconn
    obtain ⟨w3, hwk3, h23, hle3, _⟩ := walk_shorten_bounded db A B wf hne w0 hw0
    have hfh : firstHit (fun n => (walksFrom db A n).find? (fun v => v.head? == some B))
        db.users.length 1 ≠ none := by
      intro hnone
      have hz := firstHit_none _ db.users.length 1 hnone (w3.length - 1)
        (by omega) (by omega)
      exact walk_to_find? db A B hne w3 hwk3 hz
    constructor
    · unfold shortestPathNodes
      cases hres : firstHit (fun n => (walksFrom db A n).find? (fun v => v.head? == some B))
          db.users.length 1 with
      | none => exact absurd hres hfh
      | some v => rfl
    · intro w hw
      unfold shortestPathNodes at hw
      cases hres : firstHit (fun n => (walksFrom db A n).find? (fun v => v.head? == some B))
          db.users.length 1 with
      | none =>
        rw [hres] at hw
        simp at hw
      | some v =>
        rw [hres] at hw
        simp only [Option.map_some', Option.some.injEq] at hw
        obtain ⟨n0, hn0a, hn0b, hfn0, hmin⟩ := firstHit_some _ db.users.length 1 v hres
        obtain ⟨hwkv, hlenv⟩ := find?_to_walk db A B n0 v hfn0
        subst hw
        refine ⟨hwkv, ?_, ?_⟩
        · intro w2 hw2
          obtain ⟨w3b, hwk3b, h23b, hle3b, hlew2⟩ :=
            walk_shorten_bounded db A B wf hne w2 hw2
          have hn0le : n0 ≤ w3b.length - 1 := by
            by_contra hgt
            push_neg at hgt
            have hz := hmin (w3b.length - 1) (by omega) (by omega)
            exact walk_to_find? db A B hne w3b hwk3b hz
          rw [List.length_reverse, hlenv]
          omega
        · intro uA uB huA huB
          have hsp : shortestPathNodes db A B = some v.reverse := by
            unfold shortestPathNodes
            rw [hres]
            rfl
          unfold find_shortest_path
          rw [huA, huB, hsp]
  · intro hnc
    have hspn : shortestPathNodes db A B = none := by
      unfold shortestPathNodes
      cases hres : firstHit (fun n => (walksFrom db A n).find? (fun v => v.head? == some B))
          db.users.length 1 with
      | none => rfl
      | some v =>
        obtain ⟨n0, _, _, hfn0, _⟩ := firstHit_some _ db.users.length 1 v hres
        obtain ⟨hwkv, _⟩ := find?_to_walk db A B n0 v hfn0
        exact absurd ⟨v.reverse, hwkv⟩ hnc
    unfold find_shortest_path
    cases hA : findNode db A with
    | none =>
      cases hB : findNode db B with
      | none => rfl
      | some uB => rfl
    | some uA =>
      cases hB : findNode db B with
      | none => rfl
      | some uB => rw [hspn]
  · intro hor
    unfold find_shortest_path
    rcases hor with h | h
    · rw [h]
    · rw [h]
      cases hA : findNode db A with
      | none => rfl
      | some uA => rfl

/-- Witness for `c7_shortest_path` on the chain A–B–C–D–E: A and C are
connected so the shortest-path probe succeeds; identity Z resolves to
no node so the query fails `NoPathFound`. -/
theorem c7_shortest_path_witness :
    (shortestPathNodes chainDB "A" "C").isSome = true
  ∧ find_shortest_path "A" "Z" chainDB = .error noPathFound :=
  ⟨((c7_shortest_path chainDB "A" "C" (by decide) (by decide)).1
      ⟨["A", "B", "C"], by decide⟩).1,
   (c7_shortest_path chainDB "A" "Z" (by decide) (by decide)).2.2 (Or.inr (by decide))⟩
